import Mathlib

/-!
Verification of the RedisDrizzleCache component, a table-aware query cache
sitting between the Drizzle ORM and a Redis-compatible key-value store.
The definitions below are a shallow embedding of the class in
src/apps/dashboard/app/(main)/pulse/_components/monitor-row.tsx
(the RedisDrizzleCache class): the Redis store is modelled as an
association list from physical keys to stored entries, the in-process
usedTablesPerKey index as an association list from table names to key
lists, and each async method as a state-passing function.  A method that
can reject (throw) returns an Except value alongside the updated state;
caught rejections are encoded by the catch handler returning Except.ok.
Store calls issued by a method are recorded in a call trace, and
environmental failures of individual store calls (network errors and the
like) are supplied by explicit oracles (readOk, writeOk, failKeys).

Rows are opaque to the cache (the spec treats the payload as an opaque
serialized sequence of rows), so serialization is modelled as an abstract
codec on the store-value channel: RValue.jsonOf rows is the result of
JSON.stringify on a rows array (never the empty string, always parses
back to the same rows), and RValue.raw s is any other string in the
store, which fails to deserialize as a rows payload.
-/

/-- Rows are opaque payloads to the cache; a row is modelled as a record of
field name and value pairs, standing in for an arbitrary JSON object. -/
structure Row where
  fields : List (String × String)
deriving DecidableEq, Repr

/-- Model of the string channel of the backing store: either the image of a
rows list under the serializer, or some other raw string. -/
inductive RValue where
  | jsonOf : List Row → RValue
  | raw : String → RValue
deriving DecidableEq, Repr

/-- JS falsiness of the stored string: the empty string is falsy, every
other string is truthy; JSON.stringify of an array is never empty. -/
def RValue.isFalsyStr : RValue → Bool
  | RValue.jsonOf _ => false
  | RValue.raw s => s = ""

/-- Deserialization of the stored payload back into rows: succeeds exactly
on images of the serializer (JSON.parse composed with stringify is the
identity); any other payload fails to parse as a rows array. -/
def jsonParseRows : RValue → Option (List Row)
  | RValue.jsonOf rows => some rows
  | RValue.raw _ => none

/-- One entry of the backing store: the stored value and the TTL in
seconds it was written with. -/
structure StoreEntry where
  value : RValue
  ttl : Int
deriving DecidableEq, Repr

/-- The backing store contents: an association list from physical keys to
entries, newest binding first (a later setex shadows an earlier one). -/
abbrev Store := List (String × StoreEntry)

/-- Lookup a physical key in the store. -/
def storeLookup : Store → String → Option StoreEntry
  | [], _ => none
  | (k, e) :: rest, q => if k = q then some e else storeLookup rest q

/-- Effect of a redis UNLINK call on the store contents: removes every
binding of the key. -/
def storeUnlink : Store → String → Store
  | [], _ => []
  | (k, e) :: rest, q =>
      if k = q then storeUnlink rest q else (k, e) :: storeUnlink rest q

/-- Effect of a redis SETEX call on the store contents: binds the key to
the value with the given TTL, replacing any previous binding. -/
def storeSetex (s : Store) (k : String) (ttl : Int) (v : RValue) : Store :=
  (k, { value := v, ttl := ttl }) :: storeUnlink s k

/-- The in-process table index usedTablesPerKey: an association list from
table names to the list of cache keys registered for that table. -/
abbrev TableIndex := List (String × List String)

/-- Reading usedTablesPerKey at a table name: none models a JS object
without that property (undefined). -/
def idxLookup : TableIndex → String → Option (List String)
  | [], _ => none
  | (t, ks) :: rest, q => if t = q then some ks else idxLookup rest q

/-- Property assignment usedTablesPerKey at a table name: overwrites the
existing binding or appends a fresh one. -/
def idxSet : TableIndex → String → List String → TableIndex
  | [], q, v => [(q, v)]
  | (t, ks) :: rest, q, v =>
      if t = q then (q, v) :: rest else (t, ks) :: idxSet rest q v

/-- A store call issued by the cache, recorded in the call trace. -/
inductive StoreCall where
  | getC : String → StoreCall
  | setexC : String → Int → RValue → StoreCall
  | unlinkC : String → StoreCall
deriving DecidableEq, Repr

/-- Errors carried by a rejected method promise. -/
abbrev JsError := String

/-- The mutable state the cache interacts with: the backing store contents,
the in-process table index, the trace of issued store calls, and the
console error log. -/
structure CacheState where
  store : Store
  usedTablesPerKey : TableIndex
  calls : List StoreCall
  log : List String
deriving DecidableEq, Repr

/-- The state at process start: empty store view, empty index, no calls,
no log. -/
def initState : CacheState :=
  { store := [], usedTablesPerKey := [], calls := [], log := [] }

/-- Opaque handle to a Redis client connection. -/
structure RedisClient where
  clientId : Nat
deriving DecidableEq, Repr

/-- The cache strategy enum. -/
inductive CacheStrategy where
  | explicit
  | all
deriving DecidableEq, Repr

/-- Constructor options object RedisCacheConfig.  The static type requires
the redis field, but at runtime the property may still be absent
(undefined), which Option models; the other three fields are optional with
defaults applied by the constructor's destructuring. -/
structure RedisCacheConfig where
  redis : Option RedisClient
  defaultTtl : Option Int
  strategy : Option CacheStrategy
  nameSpace : Option String
deriving DecidableEq, Repr

/-- The constructed cache instance and its immutable fields.  The field
nameSpace renders the namespace field of the source, which is a reserved
word in Lean. -/
structure RedisDrizzleCache where
  redis : Option RedisClient
  defaultTtl : Int
  nameSpace : String
  strategy : CacheStrategy
deriving DecidableEq, Repr

/-- The class constructor: destructures the options, applies the defaults
defaultTtl = 300, strategy = all, namespace = drizzle, and assigns the
fields.  It performs no validation, so it never throws; the Except
codomain records that a JS constructor could in principle throw. -/
def RedisDrizzleCache.construct (cfg : RedisCacheConfig) :
    Except JsError RedisDrizzleCache :=
  Except.ok
    { redis := cfg.redis
      defaultTtl := cfg.defaultTtl.getD 300
      nameSpace := cfg.nameSpace.getD "drizzle"
      strategy := cfg.strategy.getD CacheStrategy.all }

/-- Per-call cache configuration: optional expiry hints, all JS numbers
modelled as integers (ex relative seconds, px relative milliseconds,
exat absolute epoch seconds, pxat absolute epoch milliseconds). -/
structure CacheConfig where
  ex : Option Int
  px : Option Int
  exat : Option Int
  pxat : Option Int
deriving DecidableEq, Repr

/-- The private formatKey method: physical key = namespace + colon + key. -/
def RedisDrizzleCache.formatKey (c : RedisDrizzleCache) (key : String) : String :=
  c.nameSpace ++ ":" ++ key

/-- The private calculateTtl method.  nowMs is the value of Date.now() at
the call; Math.floor of a real division by 1000 is integer floor division
Int.fdiv. -/
def RedisDrizzleCache.calculateTtl (c : RedisDrizzleCache)
    (config : Option CacheConfig) (nowMs : Int) : Int :=
  match config.bind (fun cc => cc.ex) with
  | some v => v
  | none =>
  match config.bind (fun cc => cc.px) with
  | some v => Int.fdiv v 1000
  | none =>
  match config.bind (fun cc => cc.exat) with
  | some v => max 0 (v - Int.fdiv nowMs 1000)
  | none =>
  match config.bind (fun cc => cc.pxat) with
  | some v => max 0 (Int.fdiv v 1000 - Int.fdiv nowMs 1000)
  | none => c.defaultTtl

/-- Log message of the catch handler in get. -/
def getFailMsg (cacheKey : String) : String :=
  "[RedisDrizzleCache] GET failed for key " ++ cacheKey

/-- Log message of the catch handler in put. -/
def putFailMsg (cacheKey : String) : String :=
  "[RedisDrizzleCache] PUT failed for key " ++ cacheKey

/-- The get method.  readOk says whether the redis GET round trip succeeds;
a failed round trip, like a JSON.parse failure, lands in the catch block,
which logs and returns undefined.  The method itself never rejects, which
the Except.ok outer value records. -/
def RedisDrizzleCache.get (c : RedisDrizzleCache) (st : CacheState)
    (key : String) (readOk : Bool) :
    CacheState × Except JsError (Option (List Row)) :=
  let cacheKey := c.formatKey key
  let st0 : CacheState := { st with calls := st.calls ++ [StoreCall.getC cacheKey] }
  if readOk then
    match storeLookup st.store cacheKey with
    | none => (st0, Except.ok none)
    | some e =>
        if RValue.isFalsyStr e.value then (st0, Except.ok none)
        else
          match jsonParseRows e.value with
          | some rows => (st0, Except.ok (some rows))
          | none =>
              ({ st0 with log := st0.log ++ [getFailMsg cacheKey] },
               Except.ok none)
  else
    ({ st0 with log := st0.log ++ [getFailMsg cacheKey] }, Except.ok none)

/-- One step of the table-tracking loop in put: register key under table,
appending only when not already present. -/
def registerKeyForTable (idx : TableIndex) (table key : String) : TableIndex :=
  match idxLookup idx table with
  | none => idxSet idx table [key]
  | some keys => if key ∈ keys then idx else idxSet idx table (keys ++ [key])

/-- The whole table-tracking loop of put over the tables list. -/
def registerTables (idx : TableIndex) (tables : List String) (key : String) :
    TableIndex :=
  match tables with
  | [] => idx
  | t :: rest => registerTables (registerKeyForTable idx t key) rest key

/-- The put method.  writeOk says whether the redis SETEX round trip
succeeds.  On success the store is updated and the key is registered under
every listed table; on failure the await throws before the tracking loop,
the catch block logs, and the method returns normally either way. -/
def RedisDrizzleCache.put (c : RedisDrizzleCache) (st : CacheState)
    (key : String) (response : List Row) (tables : List String)
    ( _isTag : Bool) (config : Option CacheConfig) (nowMs : Int)
    (writeOk : Bool) : CacheState × Except JsError Unit :=
  let cacheKey := c.formatKey key
  let ttl := c.calculateTtl config nowMs
  let st0 : CacheState :=
    { st with calls := st.calls ++ [StoreCall.setexC cacheKey ttl (RValue.jsonOf response)] }
  if writeOk then
    ({ st0 with
        store := storeSetex st0.store cacheKey ttl (RValue.jsonOf response)
        usedTablesPerKey := registerTables st0.usedTablesPerKey tables key },
     Except.ok ())
  else
    ({ st0 with log := st0.log ++ [putFailMsg cacheKey] }, Except.ok ())

/-- Insertion into the keysToDelete set: JS Set add, insertion order kept,
duplicates dropped. -/
def insertDedup (acc : List String) (k : String) : List String :=
  if k ∈ acc then acc else acc ++ [k]

/-- Adding one table's tracked keys to the keysToDelete set. -/
def addKeys (acc : List String) : List String → List String
  | [] => acc
  | k :: rest => addKeys (insertDedup acc k) rest

/-- The key-collection loop of onMutate with explicit accumulator. -/
def collectKeysAux (idx : TableIndex) (acc : List String) :
    List String → List String
  | [] => acc
  | t :: rest => collectKeysAux idx (addKeys acc ((idxLookup idx t).getD [])) rest

/-- The keysToDelete set of onMutate: every key tracked under a listed
table, deduplicated, in insertion order. -/
def collectKeys (idx : TableIndex) (tables : List String) : List String :=
  collectKeysAux idx [] tables

/-- The tracking-cleanup loop of onMutate: sets the tracked key list of
every listed table to empty. -/
def clearTables (idx : TableIndex) : List String → TableIndex
  | [] => idx
  | t :: rest => clearTables (idxSet idx t []) rest

/-- Applying the issued UNLINK calls to the store: a key listed in the
failKeys oracle has its unlink rejected and leaves the store untouched. -/
def applyDeletes (failKeys : List String) : Store → List String → Store
  | s, [] => s
  | s, k :: rest =>
      applyDeletes failKeys (if k ∈ failKeys then s else storeUnlink s k) rest

/-- The onMutate method, with tags and tables already normalized to
sequences (the scalar-or-sequence normalization at the top of the source
method is cosmetic and is modelled at the call boundary; a Table reference
is rendered by its table name).  failKeys is the oracle of physical keys
whose individual UNLINK rejects.  When the computed deletion set and the
tags are both empty the store round trip is skipped entirely; otherwise
the tag keys and the collected cache keys are unlinked, the tracking for
every listed table is cleared, and the awaited Promise.all rejects exactly
when some issued unlink rejected (onMutate has no try block). -/
def RedisDrizzleCache.onMutate (c : RedisDrizzleCache) (st : CacheState)
    (tags : List String) (tables : List String) (failKeys : List String) :
    CacheState × Except JsError Unit :=
  let keysToDelete := collectKeys st.usedTablesPerKey tables
  if keysToDelete.length > 0 ∨ tags.length > 0 then
    let tagDel := tags.map (fun tag => c.formatKey ("tag:" ++ tag))
    let keyDel := keysToDelete.map (fun k => c.formatKey k)
    let allDel := tagDel ++ keyDel
    let st1 : CacheState :=
      { st with
          calls := st.calls ++ allDel.map StoreCall.unlinkC
          store := applyDeletes failKeys st.store allDel
          usedTablesPerKey := clearTables st.usedTablesPerKey tables }
    (st1,
      if allDel.any (fun k => decide (k ∈ failKeys)) then
        Except.error "unlink failed"
      else Except.ok ())
  else (st, Except.ok ())

/-! Helper lemmas about the store, the table index, and key collection. -/

theorem string_append_cancel_left (s a b : String) (h : s ++ a = s ++ b) :
    a = b := by
  apply String.ext
  have hd := congrArg String.data h
  simp only [String.data_append] at hd
  exact List.append_cancel_left hd

theorem formatKey_inj (c : RedisDrizzleCache) (k1 k2 : String)
    (h : c.formatKey k1 = c.formatKey k2) : k1 = k2 := by
  unfold RedisDrizzleCache.formatKey at h
  exact string_append_cancel_left (c.nameSpace ++ ":") k1 k2 h

theorem storeLookup_storeUnlink_self (s : Store) (k : String) :
    storeLookup (storeUnlink s k) k = none := by
  induction s with
  | nil => rfl
  | cons p rest ih =>
      obtain ⟨k0, e⟩ := p
      by_cases h : k0 = k
      · simpa [storeUnlink, h] using ih
      · simp [storeUnlink, storeLookup, h, ih]

theorem storeLookup_storeUnlink_ne (s : Store) (j k : String) (h : j ≠ k) :
    storeLookup (storeUnlink s j) k = storeLookup s k := by
  induction s with
  | nil => rfl
  | cons p rest ih =>
      obtain ⟨k0, e⟩ := p
      have hkj : ¬k = j := fun hh => h hh.symm
      by_cases h0 : k0 = j
      · subst h0
        simp [storeUnlink, storeLookup, h, ih]
      · by_cases h1 : k0 = k <;>
          simp [storeUnlink, storeLookup, h0, h1, hkj, ih]

theorem storeLookup_storeUnlink_none (s : Store) (j k : String)
    (h : storeLookup s k = none) : storeLookup (storeUnlink s j) k = none := by
  by_cases hj : j = k
  · subst hj; exact storeLookup_storeUnlink_self s j
  · rw [storeLookup_storeUnlink_ne s j k hj]; exact h

theorem storeLookup_applyDeletes_none (fk : List String) (dels : List String)
    (s : Store) (k : String) (h : storeLookup s k = none) :
    storeLookup (applyDeletes fk s dels) k = none := by
  induction dels generalizing s with
  | nil => exact h
  | cons d rest ih =>
      simp only [applyDeletes]
      by_cases hd : d ∈ fk
      · simp only [hd, if_pos]; exact ih s h
      · simp only [hd, if_neg, not_false_iff]
        exact ih _ (storeLookup_storeUnlink_none s d k h)

theorem storeLookup_applyDeletes_mem (fk : List String) (dels : List String)
    (s : Store) (k : String) (hmem : k ∈ dels) (hfk : k ∉ fk) :
    storeLookup (applyDeletes fk s dels) k = none := by
  induction dels generalizing s with
  | nil => cases hmem
  | cons d rest ih =>
      simp only [applyDeletes]
      by_cases hk : k = d
      · subst hk
        simp only [hfk, if_neg, not_false_iff]
        exact storeLookup_applyDeletes_none fk rest _ k
          (storeLookup_storeUnlink_self s k)
      · have hkr : k ∈ rest := by
          cases hmem with
          | head => exact absurd rfl hk
          | tail _ h => exact h
        exact ih _ hkr

theorem storeLookup_applyDeletes_not_mem (fk : List String) (dels : List String)
    (s : Store) (k : String) (hmem : k ∉ dels) :
    storeLookup (applyDeletes fk s dels) k = storeLookup s k := by
  induction dels generalizing s with
  | nil => rfl
  | cons d rest ih =>
      have hkd : k ≠ d := fun h => hmem (h ▸ List.mem_cons_self d rest)
      have hrest : k ∉ rest := fun h => hmem (List.mem_cons_of_mem d h)
      simp only [applyDeletes]
      by_cases hd : d ∈ fk
      · simp only [hd, if_pos]; exact ih s hrest
      · simp only [hd, if_neg, not_false_iff]
        rw [ih _ hrest, storeLookup_storeUnlink_ne s d k (Ne.symm hkd)]

theorem storeLookup_storeSetex_self (s : Store) (k : String) (ttl : Int)
    (v : RValue) :
    storeLookup (storeSetex s k ttl v) k = some { value := v, ttl := ttl } := by
  simp [storeSetex, storeLookup]

theorem idxLookup_idxSet_self (idx : TableIndex) (q : String) (v : List String) :
    idxLookup (idxSet idx q v) q = some v := by
  induction idx with
  | nil => simp [idxSet, idxLookup]
  | cons p rest ih =>
      obtain ⟨t, ks⟩ := p
      by_cases h : t = q <;> simp [idxSet, idxLookup, h, ih]

theorem idxLookup_idxSet_ne (idx : TableIndex) (q t : String) (v : List String)
    (h : q ≠ t) : idxLookup (idxSet idx q v) t = idxLookup idx t := by
  induction idx with
  | nil => simp [idxSet, idxLookup, h]
  | cons p rest ih =>
      obtain ⟨t0, ks⟩ := p
      have htq : ¬t = q := fun hh => h hh.symm
      by_cases h0 : t0 = q
      · subst h0; simp [idxSet, idxLookup, h]
      · by_cases h1 : t0 = t <;> simp [idxSet, idxLookup, h0, h1, htq, ih]

theorem mem_registerKeyForTable (idx : TableIndex) (t key : String) :
    key ∈ (idxLookup (registerKeyForTable idx t key) t).getD [] := by
  unfold registerKeyForTable
  cases h : idxLookup idx t with
  | none => simp [idxLookup_idxSet_self]
  | some keys =>
      by_cases hk : key ∈ keys
      · simp [hk, h]
      · simp [hk, idxLookup_idxSet_self]

theorem idxLookup_clearTables_not_mem (idx : TableIndex) (ts : List String)
    (t : String) (h : t ∉ ts) :
    idxLookup (clearTables idx ts) t = idxLookup idx t := by
  induction ts generalizing idx with
  | nil => rfl
  | cons a rest ih =>
      have hat : a ≠ t := fun he => h (he ▸ List.mem_cons_self a rest)
      have hrest : t ∉ rest := fun he => h (List.mem_cons_of_mem a he)
      simp only [clearTables]
      rw [ih _ hrest, idxLookup_idxSet_ne idx a t [] hat]

theorem idxLookup_clearTables_mem (idx : TableIndex) (ts : List String)
    (t : String) (h : t ∈ ts) :
    idxLookup (clearTables idx ts) t = some [] := by
  induction ts generalizing idx with
  | nil => cases h
  | cons a rest ih =>
      simp only [clearTables]
      by_cases hrest : t ∈ rest
      · exact ih _ hrest
      · have hat : t = a := by
          cases h with
          | head => rfl
          | tail _ hh => exact absurd hh hrest
        subst hat
        rw [idxLookup_clearTables_not_mem _ rest t hrest]
        exact idxLookup_idxSet_self idx t []

theorem mem_insertDedup (acc : List String) (k x : String) :
    x ∈ insertDedup acc k ↔ x ∈ acc ∨ x = k := by
  unfold insertDedup
  by_cases h : k ∈ acc
  · simp only [h, if_pos]
    constructor
    · exact Or.inl
    · rintro (hx | hx)
      · exact hx
      · exact hx ▸ h
  · simp [h]

theorem mem_addKeys_of_mem_acc (acc l : List String) (x : String)
    (h : x ∈ acc) : x ∈ addKeys acc l := by
  induction l generalizing acc with
  | nil => exact h
  | cons k rest ih =>
      exact ih _ ((mem_insertDedup acc k x).mpr (Or.inl h))

theorem mem_addKeys_of_mem (acc l : List String) (x : String) (h : x ∈ l) :
    x ∈ addKeys acc l := by
  induction l generalizing acc with
  | nil => cases h
  | cons k rest ih =>
      by_cases hx : x ∈ rest
      · exact ih _ hx
      · have hxk : x = k := by
          cases h with
          | head => rfl
          | tail _ hh => exact absurd hh hx
        exact mem_addKeys_of_mem_acc _ rest x ((mem_insertDedup acc k x).mpr (Or.inr hxk))

theorem mem_collectKeysAux_of_acc (idx : TableIndex) (acc ts : List String)
    (x : String) (h : x ∈ acc) : x ∈ collectKeysAux idx acc ts := by
  induction ts generalizing acc with
  | nil => exact h
  | cons t rest ih =>
      exact ih _ (mem_addKeys_of_mem_acc _ _ x h)

theorem mem_collectKeysAux (idx : TableIndex) (acc ts : List String)
    (t k : String) (ht : t ∈ ts) (hk : k ∈ (idxLookup idx t).getD []) :
    k ∈ collectKeysAux idx acc ts := by
  induction ts generalizing acc with
  | nil => cases ht
  | cons a rest ih =>
      by_cases hrest : t ∈ rest
      · exact ih _ hrest
      · have hta : t = a := by
          cases ht with
          | head => rfl
          | tail _ hh => exact absurd hh hrest
        subst hta
        exact mem_collectKeysAux_of_acc idx _ rest k
          (mem_addKeys_of_mem _ _ k hk)

theorem collectKeysAux_of_empty (idx : TableIndex) (ts : List String)
    (h : ∀ t ∈ ts, (idxLookup idx t).getD [] = []) (acc : List String) :
    collectKeysAux idx acc ts = acc := by
  induction ts with
  | nil => rfl
  | cons a rest ih =>
      simp only [collectKeysAux]
      rw [h a (List.mem_cons_self a rest)]
      exact ih (fun t ht => h t (List.mem_cons_of_mem a ht)) 

theorem empty_of_collectKeys_nil (idx : TableIndex) (ts : List String)
    (h : collectKeys idx ts = []) :
    ∀ t ∈ ts, (idxLookup idx t).getD [] = [] := by
  intro t ht
  cases hk : (idxLookup idx t).getD [] with
  | nil => rfl
  | cons k rest =>
      exfalso
      have : k ∈ collectKeys idx ts :=
        mem_collectKeysAux idx [] ts t k ht (hk ▸ List.mem_cons_self k rest)
      rw [h] at this
      cases this

/-- Characterization of the no-op branch of onMutate: with no tags and an
empty computed deletion set, the method returns with the state untouched,
so in particular no store call is issued. -/
theorem onMutate_noop (c : RedisDrizzleCache) (st : CacheState)
    (tables failKeys : List String)
    (h : collectKeys st.usedTablesPerKey tables = []) :
    RedisDrizzleCache.onMutate c st [] tables failKeys = (st, Except.ok ()) := by
  unfold RedisDrizzleCache.onMutate
  simp [h]

/-- Characterization of the active branch of onMutate on the state: when
the deletion set is nonempty, the unlink calls are issued, the deletions
are applied to the store, and the tracking of the listed tables is
cleared. -/
theorem onMutate_active (c : RedisDrizzleCache) (st : CacheState)
    (tables failKeys : List String)
    (h : collectKeys st.usedTablesPerKey tables ≠ []) :
    (RedisDrizzleCache.onMutate c st [] tables failKeys).1 =
      { st with
          calls := st.calls ++
            ((collectKeys st.usedTablesPerKey tables).map
              (fun k => c.formatKey k)).map StoreCall.unlinkC
          store := applyDeletes failKeys st.store
            ((collectKeys st.usedTablesPerKey tables).map (fun k => c.formatKey k))
          usedTablesPerKey := clearTables st.usedTablesPerKey tables } := by
  unfold RedisDrizzleCache.onMutate
  have hl : (collectKeys st.usedTablesPerKey tables).length > 0 :=
    List.length_pos.mpr h
  simp [hl]

/-- Spec-side TTL computation, written from the words of the
specification: if config.ex (relative seconds) is set, use it; else if
config.px (relative milliseconds) is set, use floor(px / 1000); else if
config.exat (absolute epoch seconds) is set, use max(0, exat -
now_seconds); else if config.pxat (absolute epoch milliseconds) is set,
use max(0, floor(pxat / 1000) - now_seconds); else use
defaultTtlSeconds. -/
def ttlSpec (defaultTtlSeconds : Int) (config : Option CacheConfig)
    (nowSeconds : Int) : Int :=
  match config with
  | none => defaultTtlSeconds
  | some cc =>
    match cc.ex with
    | some v => v
    | none =>
      match cc.px with
      | some v => Int.fdiv v 1000
      | none =>
        match cc.exat with
        | some v => max 0 (v - nowSeconds)
        | none =>
          match cc.pxat with
          | some v => max 0 (Int.fdiv v 1000 - nowSeconds)
          | none => defaultTtlSeconds

/-- A concrete cache instance used by the witnesses. -/
def sampleCache : RedisDrizzleCache :=
  { redis := some { clientId := 0 }
    defaultTtl := 300
    nameSpace := "drizzle"
    strategy := CacheStrategy.all }

/-- A concrete rows payload used by the witnesses. -/
def sampleRows : List Row := [{ fields := [("id", "1")] }]

/-- C1: the TTL written to the store by put is calculateTtl of the per-call
config, and calculateTtl follows the fixed precedence ex, then px div
1000, then max 0 (exat - now), then max 0 (pxat div 1000 - now), then the
configured defaultTtl; in particular ex together with px yields ex, the
empty config yields the default, and the constructor defaults
defaultTtl to 300. -/
theorem c1_ttl_precedence (c : RedisDrizzleCache) (st : CacheState)
    (key : String) (rows : List Row) (tables : List String) (tg : Bool)
    (config : Option CacheConfig) (nowMs : Int) (writeOk : Bool)
    (r : Option RedisClient) :
    (RedisDrizzleCache.put c st key rows tables tg config nowMs writeOk).1.calls
      = st.calls ++ [StoreCall.setexC (c.formatKey key)
          (c.calculateTtl config nowMs) (RValue.jsonOf rows)] ∧
    c.calculateTtl config nowMs
      = ttlSpec c.defaultTtl config (Int.fdiv nowMs 1000) ∧
    c.calculateTtl
        (some { ex := some 10, px := some 5000, exat := none, pxat := none })
        nowMs = 10 ∧
    c.calculateTtl none nowMs = c.defaultTtl ∧
    c.calculateTtl (some { ex := none, px := none, exat := none, pxat := none })
        nowMs = c.defaultTtl ∧
    RedisDrizzleCache.construct
        { redis := r, defaultTtl := none, strategy := none, nameSpace := none }
      = Except.ok
          { redis := r, defaultTtl := 300, nameSpace := "drizzle",
            strategy := CacheStrategy.all } := by
  refine ⟨?_, ?_, rfl, rfl, rfl, rfl⟩
  · cases writeOk <;> rfl
  · cases config with
    | none => rfl
    | some cc =>
        obtain ⟨e, p, ea, pa⟩ := cc
        cases e <;> cases p <;> cases ea <;> cases pa <;> rfl

/-- C5 counterexample: constructing the cache with a missing backing-store
handle does not raise; the constructor performs no validation and returns
a fully initialized instance whose redis field is simply absent. -/
theorem c5_counterexample :
    RedisDrizzleCache.construct
        { redis := none, defaultTtl := none, strategy := none, nameSpace := none }
      = Except.ok
          { redis := none, defaultTtl := 300, nameSpace := "drizzle",
            strategy := CacheStrategy.all } := rfl

/-- C5 amended: construction never fails.  The constructor performs no
runtime validation of the store handle: for every options object,
including one with the store handle absent, construction succeeds and
returns the instance with the defaults applied; no configuration error is
raised at construction time. -/
theorem c5_construct_never_fails (cfg : RedisCacheConfig) :
    RedisDrizzleCache.construct cfg
      = Except.ok
          { redis := cfg.redis,
            defaultTtl := cfg.defaultTtl.getD 300,
            nameSpace := cfg.nameSpace.getD "drizzle",
            strategy := cfg.strategy.getD CacheStrategy.all } := rfl

/-- C8: serialization round-trip.  For every key and rows, a successful
put of the rows under the key with no tables followed immediately by a
successful get of the same key returns exactly the rows that were put. -/
theorem c8_roundtrip (c : RedisDrizzleCache) (st : CacheState) (key : String)
    (rows : List Row) (config : Option CacheConfig) (nowMs : Int) :
    (RedisDrizzleCache.get c
        (RedisDrizzleCache.put c st key rows [] false config nowMs true).1
        key true).2
      = Except.ok (some rows) := by
  unfold RedisDrizzleCache.put RedisDrizzleCache.get
  simp [registerTables, storeLookup_storeSetex_self, RValue.isFalsyStr,
    jsonParseRows]

/-- C9: no-op short-circuit.  Whenever the tags list is empty and the
deletion set computed from the listed tables is empty, onMutate returns
the state unchanged: the call trace is not extended (zero store calls are
issued) and the store contents are untouched. -/
theorem c9_noop_short_circuit (c : RedisDrizzleCache) (st : CacheState)
    (tables failKeys : List String)
    (h : collectKeys st.usedTablesPerKey tables = []) :
    RedisDrizzleCache.onMutate c st [] tables failKeys = (st, Except.ok ()) :=
  onMutate_noop c st tables failKeys h

/-- C9 witness: the concrete no-op call with empty tags and empty tables
issues zero store calls and leaves the state unchanged. -/
theorem c9_noop_short_circuit_witness :
    RedisDrizzleCache.onMutate sampleCache initState [] [] []
      = (initState, Except.ok ()) :=
  c9_noop_short_circuit sampleCache initState [] [] rfl

/-- C4: get never raises.  For every key and every outcome of the store
round trip, get returns normally (the promise resolves): an absent key
yields absent; a failed store read yields absent and appends the failure
to the log; and a non-absent result is produced only when the stored
payload deserializes successfully to those rows. -/
theorem c4_get_never_raises (c : RedisDrizzleCache) (st : CacheState)
    (key : String) (readOk : Bool) :
    (∃ res, (RedisDrizzleCache.get c st key readOk).2 = Except.ok res) ∧
    (storeLookup st.store (c.formatKey key) = none →
      (RedisDrizzleCache.get c st key readOk).2 = Except.ok none) ∧
    (readOk = false →
      (RedisDrizzleCache.get c st key readOk).2 = Except.ok none ∧
      (RedisDrizzleCache.get c st key readOk).1.log
        = st.log ++ [getFailMsg (c.formatKey key)]) ∧
    (∀ rows, (RedisDrizzleCache.get c st key readOk).2
        = Except.ok (some rows) →
      ∃ e, storeLookup st.store (c.formatKey key) = some e ∧
        jsonParseRows e.value = some rows) := by
  unfold RedisDrizzleCache.get
  cases readOk with
  | false =>
      refine ⟨⟨none, rfl⟩, fun _ => rfl, fun _ => ⟨rfl, rfl⟩, ?_⟩
      intro rows h
      simp at h
  | true =>
      cases hs : storeLookup st.store (c.formatKey key) with
      | none =>
          refine ⟨⟨none, by simp [hs]⟩, fun _ => by simp [hs], ?_, ?_⟩
          · intro h; cases h
          · intro rows h
            simp [hs] at h
      | some e =>
          cases hf : RValue.isFalsyStr e.value with
          | true =>
              refine ⟨⟨none, by simp [hs, hf]⟩, ?_, ?_, ?_⟩
              · intro h; exact Option.noConfusion h
              · intro h; cases h
              · intro rows h
                simp [hs, hf] at h
          | false =>
              cases hp : jsonParseRows e.value with
              | none =>
                  refine ⟨⟨none, by simp [hs, hf, hp]⟩, ?_, ?_, ?_⟩
                  · intro h; exact Option.noConfusion h
                  · intro h; cases h
                  · intro rows h
                    simp [hs, hf, hp] at h
              | some rows0 =>
                  refine ⟨⟨some rows0, by simp [hs, hf, hp]⟩, ?_, ?_, ?_⟩
                  · intro h; exact Option.noConfusion h
                  · intro h; cases h
                  · intro rows h
                    simp [hs, hf, hp] at h
                    exact ⟨e, rfl, h ▸ hp⟩

/-- C4 witness: reading a key from the empty store with a successful round
trip returns absent. -/
theorem c4_get_never_raises_witness :
    (RedisDrizzleCache.get sampleCache initState "missing" true).2
      = Except.ok none :=
  (c4_get_never_raises sampleCache initState "missing" true).2.1 rfl

/-- C6: put never raises.  For every outcome of the store write, put
returns normally; when the write fails, the failure is logged and the
store view and the table index are left unchanged, and the key is
registered under its tables exactly when the write succeeds. -/
theorem c6_put_never_raises (c : RedisDrizzleCache) (st : CacheState)
    (key : String) (rows : List Row) (tables : List String) (tg : Bool)
    (config : Option CacheConfig) (nowMs : Int) (writeOk : Bool) :
    (RedisDrizzleCache.put c st key rows tables tg config nowMs writeOk).2
      = Except.ok () ∧
    (writeOk = false →
      (RedisDrizzleCache.put c st key rows tables tg config nowMs writeOk).1.usedTablesPerKey
        = st.usedTablesPerKey ∧
      (RedisDrizzleCache.put c st key rows tables tg config nowMs writeOk).1.store
        = st.store ∧
      (RedisDrizzleCache.put c st key rows tables tg config nowMs writeOk).1.log
        = st.log ++ [putFailMsg (c.formatKey key)]) ∧
    (writeOk = true →
      (RedisDrizzleCache.put c st key rows tables tg config nowMs writeOk).1.usedTablesPerKey
        = registerTables st.usedTablesPerKey tables key ∧
      (RedisDrizzleCache.put c st key rows tables tg config nowMs writeOk).1.store
        = storeSetex st.store (c.formatKey key) (c.calculateTtl config nowMs)
            (RValue.jsonOf rows)) := by
  cases writeOk with
  | false =>
      refine ⟨rfl, fun _ => ⟨rfl, rfl, rfl⟩, ?_⟩
      intro h; cases h
  | true =>
      refine ⟨rfl, ?_, fun _ => ⟨rfl, rfl⟩⟩
      intro h; cases h

/-- C6 witness: a concrete failed write leaves the index unchanged and a
concrete successful write registers the key. -/
theorem c6_put_never_raises_witness :
    (RedisDrizzleCache.put sampleCache initState "q1" sampleRows ["users"]
        false none 0 false).1.usedTablesPerKey
      = initState.usedTablesPerKey ∧
    (RedisDrizzleCache.put sampleCache initState "q1" sampleRows ["users"]
        false none 0 true).1.usedTablesPerKey
      = registerTables initState.usedTablesPerKey ["users"] "q1" :=
  ⟨((c6_put_never_raises sampleCache initState "q1" sampleRows ["users"]
      false none 0 false).2.1 rfl).1,
   ((c6_put_never_raises sampleCache initState "q1" sampleRows ["users"]
      false none 0 true).2.2 rfl).1⟩

/-- Characterization of a successful put on the state: the setex call is
issued, the store is updated under the physical key, and the key is
registered under every listed table. -/
theorem put_state_true (c : RedisDrizzleCache) (st : CacheState)
    (key : String) (rows : List Row) (tables : List String) (tg : Bool)
    (config : Option CacheConfig) (nowMs : Int) :
    (RedisDrizzleCache.put c st key rows tables tg config nowMs true).1
      = { st with
          calls := st.calls ++ [StoreCall.setexC (c.formatKey key)
            (c.calculateTtl config nowMs) (RValue.jsonOf rows)]
          store := storeSetex st.store (c.formatKey key)
            (c.calculateTtl config nowMs) (RValue.jsonOf rows)
          usedTablesPerKey := registerTables st.usedTablesPerKey tables key } :=
  rfl

/-- Get on a physical key that is absent from the store view returns
absent. -/
theorem get_none_of_lookup_none (c : RedisDrizzleCache) (st : CacheState)
    (key : String) (h : storeLookup st.store (c.formatKey key) = none) :
    (RedisDrizzleCache.get c st key true).2 = Except.ok none := by
  unfold RedisDrizzleCache.get
  simp [h]

/-- C2: table invalidation.  After a successful put of a key registered
under a table, an onMutate listing that table (whose unlink of that key
is not dropped by the environment) removes the store entry under the
physical key namespace:key, so a following get of the key returns
absent. -/
theorem c2_table_invalidation (c : RedisDrizzleCache) (st : CacheState)
    (k : String) (rows : List Row) (t : String) (config : Option CacheConfig)
    (nowMs : Int) (failKeys : List String) (hf : c.formatKey k ∉ failKeys) :
    storeLookup
        (RedisDrizzleCache.onMutate c
          (RedisDrizzleCache.put c st k rows [t] false config nowMs true).1
          [] [t] failKeys).1.store (c.formatKey k) = none ∧
    (RedisDrizzleCache.get c
        (RedisDrizzleCache.onMutate c
          (RedisDrizzleCache.put c st k rows [t] false config nowMs true).1
          [] [t] failKeys).1 k true).2 = Except.ok none := by
  have hidx1 : (RedisDrizzleCache.put c st k rows [t] false config nowMs true).1.usedTablesPerKey
      = registerKeyForTable st.usedTablesPerKey t k := rfl
  have hk : k ∈ (idxLookup
      ((RedisDrizzleCache.put c st k rows [t] false config nowMs true).1.usedTablesPerKey)
      t).getD [] := by
    rw [hidx1]
    exact mem_registerKeyForTable st.usedTablesPerKey t k
  have hctd : k ∈ collectKeys
      ((RedisDrizzleCache.put c st k rows [t] false config nowMs true).1.usedTablesPerKey)
      [t] :=
    mem_collectKeysAux _ [] [t] t k (List.mem_singleton.mpr rfl) hk
  have hne : collectKeys
      ((RedisDrizzleCache.put c st k rows [t] false config nowMs true).1.usedTablesPerKey)
      [t] ≠ [] :=
    List.ne_nil_of_mem hctd
  have hact := onMutate_active c
    (RedisDrizzleCache.put c st k rows [t] false config nowMs true).1 [t] failKeys hne
  have hmemdel : c.formatKey k ∈ (collectKeys
      ((RedisDrizzleCache.put c st k rows [t] false config nowMs true).1.usedTablesPerKey)
      [t]).map (fun q => c.formatKey q) :=
    List.mem_map_of_mem _ hctd
  have hnone : storeLookup
      (RedisDrizzleCache.onMutate c
        (RedisDrizzleCache.put c st k rows [t] false config nowMs true).1
        [] [t] failKeys).1.store (c.formatKey k) = none := by
    rw [hact]
    exact storeLookup_applyDeletes_mem failKeys _ _ _ hmemdel hf
  exact ⟨hnone, get_none_of_lookup_none c _ k hnone⟩

/-- C2 witness: the concrete scenario put q1 under table users, then
onMutate on users with no environmental failures, then get q1, which
returns absent. -/
theorem c2_table_invalidation_witness :
    storeLookup
        (RedisDrizzleCache.onMutate sampleCache
          (RedisDrizzleCache.put sampleCache initState "q1" sampleRows ["users"]
            false none 0 true).1
          [] ["users"] []).1.store (sampleCache.formatKey "q1") = none ∧
    (RedisDrizzleCache.get sampleCache
        (RedisDrizzleCache.onMutate sampleCache
          (RedisDrizzleCache.put sampleCache initState "q1" sampleRows ["users"]
            false none 0 true).1
          [] ["users"] []).1 "q1" true).2 = Except.ok none :=
  c2_table_invalidation sampleCache initState "q1" sampleRows "users" none 0 []
    (by decide)

/-- C7: onMutate is idempotent per table.  After an onMutate listing some
tables, every listed table's tracked key set is empty (whether or not the
active branch ran), the deletion set recomputed from those tables is
empty, and repeating the same onMutate with no intervening put is a
no-op that returns normally and deletes nothing. -/
theorem c7_onmutate_idempotent (c : RedisDrizzleCache) (st : CacheState)
    (ts failKeys : List String) (t : String) (ht : t ∈ ts) :
    (idxLookup
        (RedisDrizzleCache.onMutate c st [] ts failKeys).1.usedTablesPerKey
        t).getD [] = [] ∧
    collectKeys
        (RedisDrizzleCache.onMutate c st [] ts failKeys).1.usedTablesPerKey
        ts = [] ∧
    RedisDrizzleCache.onMutate c
        (RedisDrizzleCache.onMutate c st [] ts failKeys).1 [] ts failKeys
      = ((RedisDrizzleCache.onMutate c st [] ts failKeys).1, Except.ok ()) := by
  by_cases h : collectKeys st.usedTablesPerKey ts = []
  · have h1 : (RedisDrizzleCache.onMutate c st [] ts failKeys).1 = st := by
      rw [onMutate_noop c st ts failKeys h]
    rw [h1]
    exact ⟨empty_of_collectKeys_nil _ _ h t ht, h,
      onMutate_noop c st ts failKeys h⟩
  · have hact := onMutate_active c st ts failKeys h
    have hidx : (RedisDrizzleCache.onMutate c st [] ts failKeys).1.usedTablesPerKey
        = clearTables st.usedTablesPerKey ts := by
      rw [hact]
    have hall : ∀ u ∈ ts,
        (idxLookup (clearTables st.usedTablesPerKey ts) u).getD [] = [] := by
      intro u hu
      rw [idxLookup_clearTables_mem _ _ _ hu]
      rfl
    have hcoll : collectKeys (clearTables st.usedTablesPerKey ts) ts = [] :=
      collectKeysAux_of_empty _ _ hall []
    refine ⟨?_, ?_, ?_⟩
    · rw [hidx]; exact hall t ht
    · rw [hidx]; exact hcoll
    · apply onMutate_noop
      rw [hidx]; exact hcoll

/-- C7 witness: invalidating table users twice in a row from the initial
state; the second call is a no-op with an empty deletion set. -/
theorem c7_onmutate_idempotent_witness :
    (idxLookup
        (RedisDrizzleCache.onMutate sampleCache initState [] ["users"] []).1.usedTablesPerKey
        "users").getD [] = [] ∧
    collectKeys
        (RedisDrizzleCache.onMutate sampleCache initState [] ["users"] []).1.usedTablesPerKey
        ["users"] = [] ∧
    RedisDrizzleCache.onMutate sampleCache
        (RedisDrizzleCache.onMutate sampleCache initState [] ["users"] []).1
        [] ["users"] []
      = ((RedisDrizzleCache.onMutate sampleCache initState [] ["users"] []).1,
         Except.ok ()) :=
  c7_onmutate_idempotent sampleCache initState ["users"] [] "users" (by decide)

/-- C3: table invalidation is scoped.  Starting from the initial state,
after putting k1 under table tA and k2 under a different table tB,
invalidating tB removes only the entry of k2: get of k1 still returns its
cached rows, get of k2 returns absent, and the table-index registration
of tA still maps to exactly k1. -/
theorem c3_scoped_invalidation (c : RedisDrizzleCache)
    (k1 k2 : String) (r1 r2 : List Row) (tA tB : String)
    (cfg1 cfg2 : Option CacheConfig) (n1 n2 : Int)
    (hk : k1 ≠ k2) (ht : tA ≠ tB) :
    (RedisDrizzleCache.get c
        (RedisDrizzleCache.onMutate c
          (RedisDrizzleCache.put c
            (RedisDrizzleCache.put c initState k1 r1 [tA] false cfg1 n1 true).1
            k2 r2 [tB] false cfg2 n2 true).1
          [] [tB] []).1 k1 true).2 = Except.ok (some r1) ∧
    (RedisDrizzleCache.get c
        (RedisDrizzleCache.onMutate c
          (RedisDrizzleCache.put c
            (RedisDrizzleCache.put c initState k1 r1 [tA] false cfg1 n1 true).1
            k2 r2 [tB] false cfg2 n2 true).1
          [] [tB] []).1 k2 true).2 = Except.ok none ∧
    idxLookup
        (RedisDrizzleCache.onMutate c
          (RedisDrizzleCache.put c
            (RedisDrizzleCache.put c initState k1 r1 [tA] false cfg1 n1 true).1
            k2 r2 [tB] false cfg2 n2 true).1
          [] [tB] []).1.usedTablesPerKey tA = some [k1] := by
  have hfk : c.formatKey k1 ≠ c.formatKey k2 :=
    fun h => hk (formatKey_inj c k1 k2 h)
  refine ⟨?_, ?_, ?_⟩ <;>
    simp [RedisDrizzleCache.put, RedisDrizzleCache.get,
      RedisDrizzleCache.onMutate, registerTables, registerKeyForTable,
      idxLookup, idxSet, collectKeys, collectKeysAux, addKeys, insertDedup,
      clearTables, storeSetex, storeUnlink, storeLookup, applyDeletes,
      RValue.isFalsyStr, jsonParseRows, initState, ht, Ne.symm ht, hfk,
      Ne.symm hfk]

/-- C3 witness: the concrete scenario with q1 under users, q2 under posts,
and invalidation of posts. -/
theorem c3_scoped_invalidation_witness :
    (RedisDrizzleCache.get sampleCache
        (RedisDrizzleCache.onMutate sampleCache
          (RedisDrizzleCache.put sampleCache
            (RedisDrizzleCache.put sampleCache initState "q1" sampleRows
              ["users"] false none 0 true).1
            "q2" [] ["posts"] false none 0 true).1
          [] ["posts"] []).1 "q1" true).2 = Except.ok (some sampleRows) ∧
    (RedisDrizzleCache.get sampleCache
        (RedisDrizzleCache.onMutate sampleCache
          (RedisDrizzleCache.put sampleCache
            (RedisDrizzleCache.put sampleCache initState "q1" sampleRows
              ["users"] false none 0 true).1
            "q2" [] ["posts"] false none 0 true).1
          [] ["posts"] []).1 "q2" true).2 = Except.ok none ∧
    idxLookup
        (RedisDrizzleCache.onMutate sampleCache
          (RedisDrizzleCache.put sampleCache
            (RedisDrizzleCache.put sampleCache initState "q1" sampleRows
              ["users"] false none 0 true).1
            "q2" [] ["posts"] false none 0 true).1
          [] ["posts"] []).1.usedTablesPerKey "users" = some ["q1"] :=
  c3_scoped_invalidation sampleCache "q1" "q2" sampleRows [] "users" "posts"
    none none 0 0 (by decide) (by decide)

/-- C10: onMutate touches only the listed tables.  Starting from the
initial state, after putting a key under the two distinct tables tA and
tB, invalidating tA deletes the store entry and empties the tracking of
tA, but the key stays registered under tB; a later invalidation of tB
then issues one more (harmless) unlink for the key whose entry is already
gone, returns normally, and the entry stays absent. -/
theorem c10_cross_table_tracking (c : RedisDrizzleCache) (k : String)
    (rows : List Row) (tA tB : String) (config : Option CacheConfig)
    (nowMs : Int) (ht : tA ≠ tB) :
    storeLookup
        (RedisDrizzleCache.onMutate c
          (RedisDrizzleCache.put c initState k rows [tA, tB] false config
            nowMs true).1 [] [tA] []).1.store (c.formatKey k) = none ∧
    idxLookup
        (RedisDrizzleCache.onMutate c
          (RedisDrizzleCache.put c initState k rows [tA, tB] false config
            nowMs true).1 [] [tA] []).1.usedTablesPerKey tA = some [] ∧
    idxLookup
        (RedisDrizzleCache.onMutate c
          (RedisDrizzleCache.put c initState k rows [tA, tB] false config
            nowMs true).1 [] [tA] []).1.usedTablesPerKey tB = some [k] ∧
    (RedisDrizzleCache.onMutate c
        (RedisDrizzleCache.onMutate c
          (RedisDrizzleCache.put c initState k rows [tA, tB] false config
            nowMs true).1 [] [tA] []).1 [] [tB] []).1.calls
      = (RedisDrizzleCache.onMutate c
          (RedisDrizzleCache.put c initState k rows [tA, tB] false config
            nowMs true).1 [] [tA] []).1.calls
        ++ [StoreCall.unlinkC (c.formatKey k)] ∧
    (RedisDrizzleCache.onMutate c
        (RedisDrizzleCache.onMutate c
          (RedisDrizzleCache.put c initState k rows [tA, tB] false config
            nowMs true).1 [] [tA] []).1 [] [tB] []).2 = Except.ok () ∧
    storeLookup
        (RedisDrizzleCache.onMutate c
          (RedisDrizzleCache.onMutate c
            (RedisDrizzleCache.put c initState k rows [tA, tB] false config
              nowMs true).1 [] [tA] []).1 [] [tB] []).1.store
        (c.formatKey k) = none := by
  refine ⟨?_, ?_, ?_, ?_, ?_, ?_⟩ <;>
    simp [RedisDrizzleCache.put, RedisDrizzleCache.onMutate, registerTables,
      registerKeyForTable, idxLookup, idxSet, collectKeys, collectKeysAux,
      addKeys, insertDedup, clearTables, storeSetex, storeUnlink, storeLookup,
      applyDeletes, initState, ht, Ne.symm ht]

/-- C10 witness: the concrete scenario with one key under both users and
posts, invalidating users and then posts. -/
theorem c10_cross_table_tracking_witness :
    storeLookup
        (RedisDrizzleCache.onMutate sampleCache
          (RedisDrizzleCache.put sampleCache initState "q1" sampleRows
            ["users", "posts"] false none 0 true).1 [] ["users"] []).1.store
        (sampleCache.formatKey "q1") = none ∧
    idxLookup
        (RedisDrizzleCache.onMutate sampleCache
          (RedisDrizzleCache.put sampleCache initState "q1" sampleRows
            ["users", "posts"] false none 0 true).1 []
          ["users"] []).1.usedTablesPerKey "users" = some [] ∧
    idxLookup
        (RedisDrizzleCache.onMutate sampleCache
          (RedisDrizzleCache.put sampleCache initState "q1" sampleRows
            ["users", "posts"] false none 0 true).1 []
          ["users"] []).1.usedTablesPerKey "posts" = some ["q1"] ∧
    (RedisDrizzleCache.onMutate sampleCache
        (RedisDrizzleCache.onMutate sampleCache
          (RedisDrizzleCache.put sampleCache initState "q1" sampleRows
            ["users", "posts"] false none 0 true).1 [] ["users"] []).1
        [] ["posts"] []).1.calls
      = (RedisDrizzleCache.onMutate sampleCache
          (RedisDrizzleCache.put sampleCache initState "q1" sampleRows
            ["users", "posts"] false none 0 true).1 [] ["users"] []).1.calls
        ++ [StoreCall.unlinkC (sampleCache.formatKey "q1")] ∧
    (RedisDrizzleCache.onMutate sampleCache
        (RedisDrizzleCache.onMutate sampleCache
          (RedisDrizzleCache.put sampleCache initState "q1" sampleRows
            ["users", "posts"] false none 0 true).1 [] ["users"] []).1
        [] ["posts"] []).2 = Except.ok () ∧
    storeLookup
        (RedisDrizzleCache.onMutate sampleCache
          (RedisDrizzleCache.onMutate sampleCache
            (RedisDrizzleCache.put sampleCache initState "q1" sampleRows
              ["users", "posts"] false none 0 true).1 [] ["users"] []).1
          [] ["posts"] []).1.store (sampleCache.formatKey "q1") = none :=
  c10_cross_table_tracking sampleCache "q1" sampleRows "users" "posts" none 0
    (by decide)
